import Mathlib

/-!
Shallow embedding of the data-table presentation-state coordinator
(`useDataTableManager.tsx`) and its keyboard wiring (`DataTable.tsx`).

Rows are modelled by the list of the string representations of their field
values (`Object.values(item)` followed by `String(v)` in the source), which
is all the coordinator ever observes of a row.
-/

/-- A row, seen as the list of string representations of its field values. -/
abbrev Row := List String

/-- Column width: fixed pixels or a percentage (`number | Percentage`). -/
inductive ColumnWidth where
  | px (n : Nat)
  | percentage (n : Nat)
deriving DecidableEq, Repr

/-- Column alignment (`left | right | center`). -/
inductive ColumnAlign where
  | left
  | right
  | center
deriving DecidableEq, Repr

/-- `DataTableColumn` from `DataTable.tsx`.  The `onRender` field (a
row-to-react-node function) is never read or written by the coordinator, only
copied by the object spread, so it is omitted from the embedding.  `visible`
is `Option Bool` because the TypeScript field is `boolean | undefined`. -/
structure DataTableColumn where
  key : String
  title : Option String := none
  width : Option ColumnWidth := none
  wrap : Option Bool := none
  align : Option ColumnAlign := none
  visible : Option Bool := none
deriving DecidableEq, Repr

/-- Sort direction; `down` renders as descending, `up` as ascending. -/
inductive SortDirection where
  | up
  | down
deriving DecidableEq, Repr

/-- `Sorting` from `useDataTableManager.tsx`. -/
structure Sorting where
  key : String
  direction : SortDirection
deriving DecidableEq, Repr

/-- JavaScript truthiness of a `boolean | undefined` value
(`undefined` is falsy). -/
def truthy : Option Bool → Bool
  | some b => b
  | none => false

/-- The configuration the coordinator has pushed to the external
`DataSource`, together with a count of `dataSource.reset()` invocations
(the data source itself is an external collaborator). -/
structure DSState where
  sortBy : Option String := none
  reversed : Bool := false
  filter : Option (Row → Bool) := none
  resetCount : Nat := 0

/-- The state owned by `useDataTableManager`, plus the record of
`onSelect` callback invocations (most recent first). -/
structure CoordState where
  columns : List DataTableColumn
  selection : Int
  sorting : Option Sorting
  searchValue : String
  ds : DSState
  onSelectCalls : List (Option Row × Int)

/-- `computeInitialColumns`: normalizes each column with
`visible: c.visible !== false`. -/
def computeInitialColumns (columns : List DataTableColumn) : List DataTableColumn :=
  columns.map (fun c => {c with visible := some (c.visible != some false)})

/-- `String.prototype.includes` on the character lists: does `hay` start
with `needle`. -/
def listStartsWith : List Char → List Char → Bool
  | _, [] => true
  | [], _ :: _ => false
  | a :: as, b :: bs => a == b && listStartsWith as bs

/-- Does `needle` occur as a contiguous substring of `hay`
(`hay.includes(needle)` in JavaScript). -/
def listContainsSub : List Char → List Char → Bool
  | [], needle => needle.isEmpty
  | h :: t, needle => listStartsWith (h :: t) needle || listContainsSub t needle

/-- `String.prototype.toLowerCase`, modelled character-wise on the string's
character list. -/
def lowerChars (s : String) : List Char := s.data.map Char.toLower

/-- `computeFilter` from `useDataTableManager.tsx`: `undefined` for the
empty search value, otherwise the `dataTableFilter` predicate testing every
field's lowercased string representation for the lowercased search string. -/
def computeFilter (searchValue : String) : Option (Row → Bool) :=
  if searchValue = "" then none
  else
    let searchString := lowerChars searchValue
    some (fun item => item.any (fun v => listContainsSub (lowerChars v) searchString))

/-- `DataSource.getItem`: the row at index `i` of `output`, or the
not-found signal when out of range. -/
def getItem (output : List Row) (i : Int) : Option Row :=
  if 0 ≤ i then output[i.toNat]? else none

/-- The state right after mount: normalized columns, `selection = -1`, no
sorting, empty search value; the mount run of the `applyFilter` effect pushes
`computeFilter "" = none` to the data source. -/
def initState (defaultColumns : List DataTableColumn) : CoordState :=
  { columns := computeInitialColumns defaultColumns
    selection := -1
    sorting := none
    searchValue := ""
    ds := { filter := computeFilter "" }
    onSelectCalls := [] }

/-- Immer-style in-place update of the first column matching `p` (the
`columns.find(...)` draft that the recipe then mutates); `none` models the
`TypeError` thrown when `find` returns `undefined` and the recipe
dereferences it through the non-null assertion. -/
def updateFirst (p : DataTableColumn → Bool) (f : DataTableColumn → DataTableColumn) :
    List DataTableColumn → Option (List DataTableColumn)
  | [] => none
  | c :: rest =>
    if p c then some (f c :: rest)
    else (updateFirst p f rest).map (fun rest2 => c :: rest2)

/-- `resizeColumn`: overwrite the width of the column whose key is `id`;
`none` when no column matches (the recipe throws). -/
def resizeColumn (id : String) (width : ColumnWidth) (s : CoordState) : Option CoordState :=
  (updateFirst (fun c => c.key == id) (fun c => {c with width := some width}) s.columns).map
    (fun cols => {s with columns := cols})

/-- `toggleColumnVisibility`: negate the (JS-truthy) `visible` flag of the
column whose key is `id`; `none` when no column matches (the recipe throws). -/
def toggleColumnVisibility (id : String) (s : CoordState) : Option CoordState :=
  (updateFirst (fun c => c.key == id)
      (fun c => {c with visible := some (! truthy c.visible)}) s.columns).map
    (fun cols => {s with columns := cols})

/-- `sortColumn`: the per-key tri-state cycle, pushing `setSortBy` /
`setReversed` to the data source exactly as the source does. -/
def sortColumn (key : String) (s : CoordState) : CoordState :=
  match s.sorting with
  | some srt =>
    if srt.key == key then
      if srt.direction == SortDirection.down then
        {s with sorting := some ⟨key, SortDirection.up⟩,
                ds := {s.ds with reversed := true}}
      else
        {s with sorting := none,
                ds := {s.ds with sortBy := none, reversed := false}}
    else
      {s with sorting := some ⟨key, SortDirection.down⟩,
              ds := {s.ds with sortBy := some key, reversed := false}}
  | none =>
      {s with sorting := some ⟨key, SortDirection.down⟩,
              ds := {s.ds with sortBy := some key, reversed := false}}

/-- `reset`: restore the normalized default columns, clear sorting, and
invoke the data source's own reset.  The search value and the pushed filter
are not touched. -/
def reset (defaultColumns : List DataTableColumn) (s : CoordState) : CoordState :=
  {s with columns := computeInitialColumns defaultColumns
          sorting := none
          ds := {s.ds with resetCount := s.ds.resetCount + 1}}

/-- `setSearchValue` together with the `applyFilter` effect it triggers:
the new search value is stored and `computeFilter` of it is pushed to the
data source's filter configuration (the effect is guaranteed to run before
the next `output` read). -/
def setSearchValue (v : String) (s : CoordState) : CoordState :=
  {s with searchValue := v, ds := {s.ds with filter := computeFilter v}}

/-- `selectItem`: apply the updater to the current selection, resolve the
item through `getItem` when the new index is inside `[0, output.length)`
(`undefined` otherwise), invoke `onSelect` with `(item, newIndex)`, and commit
`newIndex` unconditionally. -/
def selectItem (updater : Int → Int) (output : List Row) (s : CoordState) : CoordState :=
  let newIndex := updater s.selection
  let item :=
    if 0 ≤ newIndex ∧ newIndex < (output.length : Int) then getItem output newIndex
    else none
  {s with selection := newIndex, onSelectCalls := (item, newIndex) :: s.onSelectCalls}

/-- `visibleColumns`: `columns.filter((column) => column.visible)` — a
JS-truthiness filter. -/
def visibleColumns (columns : List DataTableColumn) : List DataTableColumn :=
  columns.filter (fun c => truthy c.visible)

/-- `onKeyDown` from `DataTable.tsx`: the six navigation keys and their
`selectItem` transforms, with `visibleRowCount` standing for
`virtualizerRef.current.virtualItems.length` read at key-handling time.
The boolean is the `handled` flag (the event is consumed exactly when it is
`true`). -/
def onKeyDown (key : String) (output : List Row) (visibleRowCount : Nat)
    (s : CoordState) : CoordState × Bool :=
  match key with
  | "ArrowUp" =>
    (selectItem (fun idx => if idx > 0 then idx - 1 else 0) output s, true)
  | "ArrowDown" =>
    (selectItem (fun idx =>
        if idx < (output.length : Int) - 1 then idx + 1 else idx) output s, true)
  | "Home" => (selectItem (fun _ => 0) output s, true)
  | "End" => (selectItem (fun _ => (output.length : Int) - 1) output s, true)
  | "PageDown" =>
    (selectItem (fun idx =>
        min ((output.length : Int) - 1) (idx + (visibleRowCount : Int) - 1)) output s, true)
  | "PageUp" =>
    (selectItem (fun idx =>
        max 0 (idx - (visibleRowCount : Int) - 1)) output s, true)
  | _ => (s, false)

/-- One user-level operation against the coordinator. -/
inductive Op where
  | reset
  | resize (id : String) (w : ColumnWidth)
  | sort (key : String)
  | toggle (id : String)
  | setSearch (v : String)
  | select (updater : Int → Int) (output : List Row)
  | keydown (k : String) (output : List Row) (v : Nat)

/-- Apply one operation; `none` when the operation throws. -/
def applyOp (defaultColumns : List DataTableColumn) : Op → CoordState → Option CoordState
  | Op.reset, s => some (reset defaultColumns s)
  | Op.resize id w, s => resizeColumn id w s
  | Op.sort k, s => some (sortColumn k s)
  | Op.toggle id, s => toggleColumnVisibility id s
  | Op.setSearch v, s => some (setSearchValue v s)
  | Op.select u out, s => some (selectItem u out s)
  | Op.keydown k out v, s => some ((onKeyDown k out v s).1)

/-- Apply a sequence of operations left to right. -/
def applyOps (defaultColumns : List DataTableColumn) : List Op → CoordState → Option CoordState
  | [], s => some s
  | op :: ops, s =>
    match applyOp defaultColumns op s with
    | none => none
    | some t => applyOps defaultColumns ops t

/-- The coordinator states reachable from mount with default columns `d`. -/
inductive Reachable (d : List DataTableColumn) : CoordState → Prop where
  | init : Reachable d (initState d)
  | step : ∀ {s t : CoordState} (op : Op),
      Reachable d s → applyOp d op s = some t → Reachable d t

/-- A 20-row output, as in the spec's keyboard scenario. -/
def out20 : List Row := List.replicate 20 [""]

/-- A one-column default set with key `"a"`. -/
def colA : DataTableColumn := {key := "a"}

/-- A three-row output. -/
def out3 : List Row := [["r0"], ["r1"], ["r2"]]

/-- A reachable state whose selection (5) lies above `out3.length - 1`:
`selectItem` commits out-of-range indices unconditionally. -/
def stateSel5 : CoordState := selectItem (fun _ => 5) out3 (initState [])

/-- The state reached from mount on the single column `"a"` by
`sortColumn "ghost"`. -/
def c7BadState : CoordState := sortColumn "ghost" (initState [colA])

/-- `updateFirst` signals the throw when no element satisfies `p`. -/
theorem updateFirst_eq_none (p : DataTableColumn → Bool) (f : DataTableColumn → DataTableColumn)
    (cols : List DataTableColumn) (h : ∀ c ∈ cols, p c = false) :
    updateFirst p f cols = none := by
  induction cols with
  | nil => rfl
  | cons c rest ih =>
    simp [updateFirst, h c (List.mem_cons_self c rest),
      ih (fun x hx => h x (List.mem_cons_of_mem c hx))]

/-- C1: for every updater returning `N`, `selectItem` invokes `onSelect`
with `(getItem N, N)` when `0 ≤ N < output.length` and `(undefined, N)`
otherwise, and commits `N` as the new selection unconditionally — the
selection is never clamped or rejected. -/
theorem selectItem_commits_unconditionally (u : Int → Int) (output : List Row)
    (s : CoordState) :
    (selectItem u output s).selection = u s.selection ∧
    (selectItem u output s).onSelectCalls =
      ((if 0 ≤ u s.selection ∧ u s.selection < (output.length : Int)
          then output[(u s.selection).toNat]?
          else none), u s.selection) :: s.onSelectCalls := by
  refine ⟨rfl, ?_⟩
  by_cases h : 0 ≤ u s.selection ∧ u s.selection < (output.length : Int)
  · simp [selectItem, getItem, h, h.1]
  · simp [selectItem, h]

/-- C8: the PageUp key updates the selection through the transform
`max(0, idx - visibleRowCount - 1)`; in particular End then PageUp with
`visibleRowCount = 5` and `output.length = 20` moves the selection from 19
to 13. -/
theorem pageUp_transform_and_scenario (output : List Row) (v : Nat) (s : CoordState) :
    ((onKeyDown "PageUp" output v s).1).selection = max 0 (s.selection - (v : Int) - 1) ∧
    ((onKeyDown "End" out20 5 (initState [])).1).selection = 19 ∧
    ((onKeyDown "PageUp" out20 5
        ((onKeyDown "End" out20 5 (initState [])).1)).1).selection = 13 := by
  refine ⟨rfl, by decide, by decide⟩

/-- C3 counterexample: with the single column `"a"`, `resizeColumn "b"`
does not leave the state unchanged — it throws (the `find` result is
`undefined` and the width assignment dereferences it), modelled as `none`. -/
theorem resizeColumn_missing_key_counterexample :
    resizeColumn "b" (ColumnWidth.px 100) (initState [colA]) = none ∧
    resizeColumn "b" (ColumnWidth.px 100) (initState [colA])
      ≠ some (initState [colA]) := by
  refine ⟨rfl, ?_⟩
  intro h
  exact Option.noConfusion h

/-- C3 amended: when no column's key matches, `resizeColumn` fails with the
thrown `TypeError` (it is not a silent no-op). -/
theorem resizeColumn_missing_key_throws (id : String) (w : ColumnWidth) (s : CoordState)
    (h : ∀ c ∈ s.columns, (c.key == id) = false) :
    resizeColumn id w s = none := by
  rw [resizeColumn, updateFirst_eq_none _ _ _ h]
  rfl

/-- Witness for the amended C3 at a concrete one-column state. -/
theorem resizeColumn_missing_key_throws_witness :
    resizeColumn "b" (ColumnWidth.px 50) (initState [colA]) = none :=
  resizeColumn_missing_key_throws "b" (ColumnWidth.px 50) (initState [colA]) (by decide)

/-- C4 counterexample: with a 3-row output and current selection 5 (a
reachable state), ArrowDown keeps the selection at 5 instead of clamping it
to `min(5+1, 3-1) = 2`. -/
theorem arrowDown_not_clamped_counterexample :
    stateSel5.selection = 5 ∧
    ((onKeyDown "ArrowDown" out3 10 stateSel5).1).selection = 5 ∧
    ((onKeyDown "ArrowDown" out3 10 stateSel5).1).selection
      ≠ min (stateSel5.selection + 1) ((out3.length : Int) - 1) := by
  refine ⟨rfl, rfl, by decide⟩

/-- C4 amended: ArrowDown updates the selection through the transform
`idx < L-1 ? idx+1 : idx`, which agrees with `min(idx+1, L-1)` whenever the
current index is at most `L-1`; an index strictly above `L-1` is kept
unchanged, not clamped. -/
theorem arrowDown_transform (output : List Row) (v : Nat) (s : CoordState) :
    ((onKeyDown "ArrowDown" output v s).1).selection
      = (if s.selection < (output.length : Int) - 1 then s.selection + 1
          else s.selection) ∧
    ((onKeyDown "ArrowDown" output v s).1).selection
      = (if s.selection ≤ (output.length : Int) - 1
          then min (s.selection + 1) ((output.length : Int) - 1)
          else s.selection) := by
  have h1 : ((onKeyDown "ArrowDown" output v s).1).selection
      = (if s.selection < (output.length : Int) - 1 then s.selection + 1
          else s.selection) := rfl
  refine ⟨h1, ?_⟩
  rw [h1]
  simp only [min_def]
  split_ifs <;> omega

/-- After `sortColumn k`, the sorting is either cleared or carries key `k`. -/
theorem sortColumn_sorting_key (k : String) (s : CoordState) :
    (sortColumn k s).sorting = none ∨
    ∃ dir, (sortColumn k s).sorting = some ⟨k, dir⟩ := by
  unfold sortColumn
  cases hs : s.sorting with
  | none => exact Or.inr ⟨SortDirection.down, rfl⟩
  | some srt =>
    by_cases hk : (srt.key == k) = true
    · by_cases hdir : (srt.direction == SortDirection.down) = true
      · simp [hk, hdir]
      · simp [hk, hdir]
    · simp [hk]

/-- C2: starting from any state in which `k` is not the sorted key, three
consecutive `sortColumn k` calls pass through `{key: k, direction: down}`
with `reversed = false`, then `{key: k, direction: up}` with
`reversed = true`, and finally return the sorting to none with the data
source configured `sortBy = none`, `reversed = false`. -/
theorem sortColumn_full_cycle (k : String) (s : CoordState)
    (h : ∀ srt, s.sorting = some srt → srt.key ≠ k) :
    (sortColumn k s).sorting = some ⟨k, SortDirection.down⟩ ∧
    (sortColumn k s).ds.sortBy = some k ∧
    (sortColumn k s).ds.reversed = false ∧
    (sortColumn k (sortColumn k s)).sorting = some ⟨k, SortDirection.up⟩ ∧
    (sortColumn k (sortColumn k s)).ds.reversed = true ∧
    (sortColumn k (sortColumn k (sortColumn k s))).sorting = none ∧
    (sortColumn k (sortColumn k (sortColumn k s))).ds.sortBy = none ∧
    (sortColumn k (sortColumn k (sortColumn k s))).ds.reversed = false := by
  have h1 : sortColumn k s =
      {s with sorting := some ⟨k, SortDirection.down⟩,
              ds := {s.ds with sortBy := some k, reversed := false}} := by
    cases hs : s.sorting with
    | none => simp [sortColumn, hs]
    | some srt => simp [sortColumn, hs, h srt hs]
  have h2 : sortColumn k (sortColumn k s) =
      {s with sorting := some ⟨k, SortDirection.up⟩,
              ds := {s.ds with sortBy := some k, reversed := true}} := by
    rw [h1]; simp [sortColumn]
  have h3 : sortColumn k (sortColumn k (sortColumn k s)) =
      {s with sorting := none,
              ds := {s.ds with sortBy := none, reversed := false}} := by
    rw [h2]; simp [sortColumn]
  rw [h3, h2, h1]
  exact ⟨rfl, rfl, rfl, rfl, rfl, rfl, rfl, rfl⟩

/-- Witness for C2 at the mount state and key `"a"`. -/
theorem sortColumn_full_cycle_witness :
    (sortColumn "a" (sortColumn "a" (sortColumn "a" (initState [])))).sorting = none := by
  have h := sortColumn_full_cycle "a" (initState []) (fun _ hs => Option.noConfusion hs)
  exact h.2.2.2.2.2.1

/-- C9: for distinct keys, `sortColumn k1` then `sortColumn k2` always
yields `{key: k2, direction: down}` with the data source configured
`sortBy = k2`, `reversed = false`, whatever the prior sorting state. -/
theorem sortColumn_switch_key (k1 k2 : String) (s : CoordState) (hne : k1 ≠ k2) :
    (sortColumn k2 (sortColumn k1 s)).sorting = some ⟨k2, SortDirection.down⟩ ∧
    (sortColumn k2 (sortColumn k1 s)).ds.sortBy = some k2 ∧
    (sortColumn k2 (sortColumn k1 s)).ds.reversed = false := by
  obtain h | ⟨dir, h⟩ := sortColumn_sorting_key k1 s
  all_goals generalize hg : sortColumn k1 s = s1 at h ⊢
  · simp [sortColumn, h]
  · simp [sortColumn, h, hne]

/-- Witness for C9 at the mount state with keys `"a"` and `"b"`. -/
theorem sortColumn_switch_key_witness :
    (sortColumn "b" (sortColumn "a" (initState []))).sorting
      = some ⟨"b", SortDirection.down⟩ :=
  (sortColumn_switch_key "a" "b" (initState []) (by decide)).1

/-- `listStartsWith` is correct: `hay` starts with `needle` iff `needle`
is a prefix of `hay`. -/
theorem listStartsWith_iff (hay needle : List Char) :
    listStartsWith hay needle = true ↔ ∃ rest, hay = needle ++ rest := by
  induction needle generalizing hay with
  | nil => simp [listStartsWith]
  | cons b bs ih =>
    cases hay with
    | nil => simp [listStartsWith]
    | cons a as =>
      simp [listStartsWith, Bool.and_eq_true, ih, List.cons.injEq, exists_and_left]

/-- `listContainsSub` is correct: `needle` occurs in `hay` iff `hay`
decomposes as `pre ++ needle ++ post`. -/
theorem listContainsSub_iff (hay needle : List Char) :
    listContainsSub hay needle = true ↔ ∃ pre post, hay = pre ++ needle ++ post := by
  induction hay with
  | nil =>
    rw [listContainsSub]
    constructor
    · intro hL
      have hn : needle = [] := by simpa [List.isEmpty_iff] using hL
      exact ⟨[], [], by simp [hn]⟩
    · rintro ⟨pre, post, hp⟩
      obtain ⟨h1, -⟩ := List.append_eq_nil.mp hp.symm
      simp [List.isEmpty_iff, (List.append_eq_nil.mp h1).2]
  | cons c t ih =>
    constructor
    · intro hL
      rw [listContainsSub] at hL
      simp only [Bool.or_eq_true] at hL
      rcases hL with h1 | h2
      · obtain ⟨rest, hr⟩ := (listStartsWith_iff _ _).mp h1
        exact ⟨[], rest, by simp [hr]⟩
      · obtain ⟨pre, post, hp⟩ := ih.mp h2
        exact ⟨c :: pre, post, by simp [hp]⟩
    · rintro ⟨pre, post, hp⟩
      rw [listContainsSub]
      simp only [Bool.or_eq_true]
      cases pre with
      | nil =>
        exact Or.inl ((listStartsWith_iff _ _).mpr ⟨post, by simpa using hp⟩)
      | cons p ps =>
        simp only [List.cons_append] at hp
        injection hp with hc ht
        exact Or.inr (ih.mpr ⟨ps, post, ht⟩)

/-- C5: a non-empty search value yields a predicate accepting a row iff
some field's lowercased string representation contains the lowercased
search string as a contiguous substring; the empty search value yields no
filter (`undefined` is pushed); and on rows `[{name:"Alice"}, {name:"bob"}]`
the predicate for `"AL"` keeps exactly `{name:"Alice"}`. -/
theorem computeFilter_semantics (sv : String) (hne : sv ≠ "") :
    computeFilter "" = none ∧
    (∃ p, computeFilter sv = some p ∧
      ∀ row : Row, (p row = true ↔
        ∃ v ∈ row, ∃ pre post, lowerChars v = pre ++ lowerChars sv ++ post)) ∧
    (∃ q, computeFilter "AL" = some q ∧
      [["Alice"], ["bob"]].filter q = [["Alice"]]) := by
  refine ⟨rfl, ?_, ?_⟩
  · refine ⟨fun item =>
        item.any (fun v => listContainsSub (lowerChars v) (lowerChars sv)), ?_, ?_⟩
    · simp [computeFilter, hne]
    · intro row
      simp [List.any_eq_true, listContainsSub_iff]
  · exact ⟨_, rfl, by decide⟩

/-- Witness for C5 at the search value `"AL"`. -/
theorem computeFilter_semantics_witness :
    ("AL" : String) ≠ "" ∧ computeFilter "" = none :=
  ⟨by decide, (computeFilter_semantics "AL" (by decide)).1⟩

/-- C6: after `reset()`, every column's `visible` equals its normalized
default (`true` unless the caller's default column set `visible` to exactly
`false`), sorting is cleared, the data source's reset is invoked once more,
and the search value is left unchanged. -/
theorem reset_restores_defaults (d : List DataTableColumn) (s : CoordState) :
    (reset d s).columns.map (fun c => c.visible)
        = d.map (fun c => some (c.visible != some false)) ∧
    (reset d s).sorting = none ∧
    (reset d s).ds.resetCount = s.ds.resetCount + 1 ∧
    (reset d s).searchValue = s.searchValue := by
  refine ⟨?_, rfl, rfl, rfl⟩
  simp [reset, computeInitialColumns, List.map_map]

/-- A successful `updateFirst` never changes the key sequence when the
update function preserves keys. -/
theorem updateFirst_map_key (p : DataTableColumn → Bool) (f : DataTableColumn → DataTableColumn)
    (hf : ∀ c, (f c).key = c.key) :
    ∀ (cols cols2 : List DataTableColumn), updateFirst p f cols = some cols2 →
      cols2.map (fun c => c.key) = cols.map (fun c => c.key) := by
  intro cols
  induction cols with
  | nil =>
    intro cols2 h
    simp [updateFirst] at h
  | cons c rest ih =>
    intro cols2 h
    rw [updateFirst] at h
    by_cases hp : p c = true
    · rw [if_pos hp] at h
      injection h with h2
      subst h2
      simp [hf]
    · rw [if_neg hp] at h
      cases hu : updateFirst p f rest with
      | none => rw [hu] at h; exact Option.noConfusion h
      | some rest2 =>
        rw [hu] at h
        injection h with h2
        subst h2
        simp [ih rest2 hu]

/-- A successful `updateFirst` yields only original elements or images of
original elements under the update function. -/
theorem updateFirst_mem (p : DataTableColumn → Bool) (f : DataTableColumn → DataTableColumn) :
    ∀ (cols cols2 : List DataTableColumn), updateFirst p f cols = some cols2 →
      ∀ c2 ∈ cols2, c2 ∈ cols ∨ ∃ c ∈ cols, c2 = f c := by
  intro cols
  induction cols with
  | nil =>
    intro cols2 h
    simp [updateFirst] at h
  | cons c rest ih =>
    intro cols2 h
    rw [updateFirst] at h
    by_cases hp : p c = true
    · rw [if_pos hp] at h
      injection h with h2
      subst h2
      intro c2 hc2
      rcases List.mem_cons.mp hc2 with h3 | h3
      · exact Or.inr ⟨c, List.mem_cons_self _ _, h3⟩
      · exact Or.inl (List.mem_cons_of_mem _ h3)
    · rw [if_neg hp] at h
      cases hu : updateFirst p f rest with
      | none => rw [hu] at h; exact Option.noConfusion h
      | some rest2 =>
        rw [hu] at h
        injection h with h2
        subst h2
        intro c2 hc2
        rcases List.mem_cons.mp hc2 with h3 | h3
        · exact Or.inl (h3 ▸ List.mem_cons_self _ _)
        · rcases ih rest2 hu c2 h3 with h4 | ⟨c3, hc3, he⟩
          · exact Or.inl (List.mem_cons_of_mem _ h4)
          · exact Or.inr ⟨c3, List.mem_cons_of_mem _ hc3, he⟩

/-- `sortColumn` never touches the column set. -/
theorem sortColumn_columns (k : String) (s : CoordState) :
    (sortColumn k s).columns = s.columns := by
  unfold sortColumn
  split
  · split_ifs <;> rfl
  · rfl

/-- `onKeyDown` never touches the column set or the sorting. -/
theorem onKeyDown_columns_sorting (k : String) (output : List Row) (v : Nat)
    (s : CoordState) :
    ((onKeyDown k output v s).1).columns = s.columns ∧
    ((onKeyDown k output v s).1).sorting = s.sorting := by
  unfold onKeyDown
  split <;> exact ⟨rfl, rfl⟩

/-- One operation preserves both the key sequence and the
sorting-key-validity invariant, provided a `sort` operation only uses keys
of the default columns. -/
theorem applyOp_preserves_keys (d : List DataTableColumn) (op : Op) (s t : CoordState)
    (hop : applyOp d op s = some t)
    (hgood : ∀ k, op = Op.sort k → k ∈ d.map (fun c => c.key))
    (hkeys : s.columns.map (fun c => c.key) = d.map (fun c => c.key))
    (hsort : ∀ srt, s.sorting = some srt → srt.key ∈ d.map (fun c => c.key)) :
    t.columns.map (fun c => c.key) = d.map (fun c => c.key) ∧
    ∀ srt, t.sorting = some srt → srt.key ∈ d.map (fun c => c.key) := by
  cases op with
  | reset =>
    simp only [applyOp] at hop
    injection hop with h2
    subst h2
    constructor
    · simp [reset, computeInitialColumns, List.map_map]
    · intro srt h
      simp [reset] at h
  | resize id w =>
    simp only [applyOp] at hop
    rw [resizeColumn] at hop
    cases hu : updateFirst (fun c => c.key == id) (fun c => {c with width := some w})
        s.columns with
    | none => rw [hu] at hop; exact Option.noConfusion hop
    | some cols2 =>
      rw [hu] at hop
      injection hop with h2
      subst h2
      exact ⟨by rw [show ({s with columns := cols2} : CoordState).columns = cols2 from rfl,
        updateFirst_map_key (fun c => c.key == id) (fun c => {c with width := some w})
          (fun c => rfl) _ _ hu, hkeys], hsort⟩
  | sort k =>
    simp only [applyOp] at hop
    injection hop with h2
    subst h2
    constructor
    · rw [sortColumn_columns]
      exact hkeys
    · intro srt h
      rcases sortColumn_sorting_key k s with hn | ⟨dir, hd⟩
      · rw [hn] at h; exact Option.noConfusion h
      · rw [hd] at h
        injection h with h3
        subst h3
        exact hgood k rfl
  | toggle id =>
    simp only [applyOp] at hop
    rw [toggleColumnVisibility] at hop
    cases hu : updateFirst (fun c => c.key == id)
        (fun c => {c with visible := some (! truthy c.visible)}) s.columns with
    | none => rw [hu] at hop; exact Option.noConfusion hop
    | some cols2 =>
      rw [hu] at hop
      injection hop with h2
      subst h2
      exact ⟨by rw [show ({s with columns := cols2} : CoordState).columns = cols2 from rfl,
        updateFirst_map_key (fun c => c.key == id)
          (fun c => {c with visible := some (! truthy c.visible)})
          (fun c => rfl) _ _ hu, hkeys], hsort⟩
  | setSearch v =>
    simp only [applyOp] at hop
    injection hop with h2
    subst h2
    exact ⟨hkeys, hsort⟩
  | select u out =>
    simp only [applyOp] at hop
    injection hop with h2
    subst h2
    exact ⟨hkeys, hsort⟩
  | keydown kk out vv =>
    simp only [applyOp] at hop
    injection hop with h2
    subst h2
    obtain ⟨hc, hs2⟩ := onKeyDown_columns_sorting kk out vv s
    refine ⟨by rw [hc]; exact hkeys, ?_⟩
    intro srt h
    rw [hs2] at h
    exact hsort srt h

/-- The key/sorting invariant carries over any run of operations whose
`sort` calls only use default-column keys. -/
theorem applyOps_invariant (d : List DataTableColumn) :
    ∀ (ops : List Op) (s t : CoordState),
      (∀ k, Op.sort k ∈ ops → k ∈ d.map (fun c => c.key)) →
      s.columns.map (fun c => c.key) = d.map (fun c => c.key) →
      (∀ srt, s.sorting = some srt → srt.key ∈ d.map (fun c => c.key)) →
      applyOps d ops s = some t →
      t.columns.map (fun c => c.key) = d.map (fun c => c.key) ∧
      ∀ srt, t.sorting = some srt → srt.key ∈ d.map (fun c => c.key) := by
  intro ops
  induction ops with
  | nil =>
    intro s t _ hk hs happ
    rw [applyOps] at happ
    injection happ with h2
    subst h2
    exact ⟨hk, hs⟩
  | cons op rest ih =>
    intro s t hgood hk hs happ
    rw [applyOps] at happ
    cases hop : applyOp d op s with
    | none => rw [hop] at happ; exact Option.noConfusion happ
    | some u =>
      rw [hop] at happ
      obtain ⟨hk2, hs2⟩ := applyOp_preserves_keys d op s u hop
        (fun k hk2 => hgood k (by subst hk2; exact List.mem_cons_self _ _)) hk hs
      exact ih u t (fun k hm => hgood k (List.mem_cons_of_mem _ hm)) hk2 hs2 happ

/-- C7 counterexample: `sortColumn "ghost"` on a table whose only column
has key `"a"` is a reachable step, and it commits a sorting whose key
references no existing column — the invariant is not preserved for
arbitrary keys. -/
theorem sorting_key_invariant_counterexample :
    applyOps [colA] [Op.sort "ghost"] (initState [colA]) = some c7BadState ∧
    c7BadState.sorting = some ⟨"ghost", SortDirection.down⟩ ∧
    c7BadState.columns.map (fun c => c.key) = ["a"] ∧
    ¬ ("ghost" ∈ c7BadState.columns.map (fun c => c.key)) := by
  refine ⟨rfl, rfl, rfl, by decide⟩

/-- C7 amended: the code never validates sort keys, so the invariant holds
only for runs whose `sortColumn` calls all use existing column keys; every
state reached by such a run has its sorting key (when set) matching some
column of the column set. -/
theorem sorting_key_invariant_amended (d : List DataTableColumn) (ops : List Op)
    (t : CoordState)
    (hgood : ∀ k, Op.sort k ∈ ops → k ∈ d.map (fun c => c.key))
    (happ : applyOps d ops (initState d) = some t) :
    ∀ srt, t.sorting = some srt → srt.key ∈ t.columns.map (fun c => c.key) := by
  obtain ⟨hk, hs⟩ := applyOps_invariant d ops (initState d) t hgood
    (by simp [initState, computeInitialColumns, List.map_map])
    (fun srt h => Option.noConfusion h) happ
  intro srt h
  rw [hk]
  exact hs srt h

/-- Witness for the amended C7: sorting by the existing key `"a"`. -/
theorem sorting_key_invariant_amended_witness :
    (sortColumn "a" (initState [colA])).sorting = some ⟨"a", SortDirection.down⟩ ∧
    "a" ∈ (sortColumn "a" (initState [colA])).columns.map (fun c => c.key) := by
  refine ⟨rfl, ?_⟩
  refine sorting_key_invariant_amended [colA] [Op.sort "a"]
    (sortColumn "a" (initState [colA])) ?_ rfl ⟨"a", SortDirection.down⟩ rfl
  intro k hk
  have h2 := List.mem_singleton.mp hk
  injection h2 with h3
  subst h3
  decide

/-- Every normalized column carries a definite boolean `visible`. -/
theorem computeInitialColumns_visible (d : List DataTableColumn) :
    ∀ c ∈ computeInitialColumns d, c.visible ≠ none := by
  intro c hc
  simp only [computeInitialColumns, List.mem_map] at hc
  obtain ⟨c0, -, rfl⟩ := hc
  simp

/-- In every reachable state, every column's `visible` is a definite
boolean: construction normalizes it and every operation rewrites it with a
boolean (or leaves it alone). -/
theorem reachable_visible_defined (d : List DataTableColumn) (s : CoordState)
    (h : Reachable d s) : ∀ c ∈ s.columns, c.visible ≠ none := by
  induction h with
  | init => exact computeInitialColumns_visible d
  | @step s0 t op hr hop ih =>
    cases op with
    | reset =>
      simp only [applyOp] at hop
      injection hop with h2
      subst h2
      exact computeInitialColumns_visible d
    | resize id w =>
      simp only [applyOp] at hop
      rw [resizeColumn] at hop
      cases hu : updateFirst (fun c => c.key == id) (fun c => {c with width := some w})
          s0.columns with
      | none => rw [hu] at hop; exact Option.noConfusion hop
      | some cols2 =>
        rw [hu] at hop
        injection hop with h2
        subst h2
        intro c2 hc2
        rcases updateFirst_mem _ _ _ _ hu c2 hc2 with h3 | ⟨c3, hc3, he⟩
        · exact ih c2 h3
        · subst he
          exact ih c3 hc3
    | sort k =>
      simp only [applyOp] at hop
      injection hop with h2
      subst h2
      simp only [sortColumn_columns]
      exact ih
    | toggle id =>
      simp only [applyOp] at hop
      rw [toggleColumnVisibility] at hop
      cases hu : updateFirst (fun c => c.key == id)
          (fun c => {c with visible := some (! truthy c.visible)}) s0.columns with
      | none => rw [hu] at hop; exact Option.noConfusion hop
      | some cols2 =>
        rw [hu] at hop
        injection hop with h2
        subst h2
        intro c2 hc2
        rcases updateFirst_mem _ _ _ _ hu c2 hc2 with h3 | ⟨c3, hc3, he⟩
        · exact ih c2 h3
        · subst he
          simp
    | setSearch v =>
      simp only [applyOp] at hop
      injection hop with h2
      subst h2
      exact ih
    | select u out =>
      simp only [applyOp] at hop
      injection hop with h2
      subst h2
      exact ih
    | keydown kk out vv =>
      simp only [applyOp] at hop
      injection hop with h2
      subst h2
      simp only [(onKeyDown_columns_sorting kk out vv s0).1]
      exact ih

/-- C10: in every reachable state every column's `visible` is a definite
boolean (never absent), so the truthiness filter `visibleColumns` coincides
with filtering by `visible === true`, and it preserves column order (it is
a sublist of the column set). -/
theorem visible_always_defined (d : List DataTableColumn) (s : CoordState)
    (h : Reachable d s) :
    (∀ c ∈ s.columns, c.visible ≠ none) ∧
    visibleColumns s.columns = s.columns.filter (fun c => c.visible == some true) ∧
    List.Sublist (visibleColumns s.columns) s.columns := by
  have hv := reachable_visible_defined d s h
  refine ⟨hv, ?_, List.filter_sublist _⟩
  unfold visibleColumns
  apply List.filter_congr
  intro c hc
  cases hvis : c.visible with
  | none => exact absurd hvis (hv c hc)
  | some b => cases b <;> simp [truthy, hvis]

/-- Witness for C10 at the mount state over the single column `"a"`. -/
theorem visible_always_defined_witness :
    visibleColumns (initState [colA]).columns
      = (initState [colA]).columns.filter (fun c => c.visible == some true) :=
  (visible_always_defined [colA] (initState [colA]) Reachable.init).2.1
